import Mathlib

/-!
Formal model of the softpaw SSH binary packet codec (src/codec.rs) and
message layer (src/message.rs), as a shallow embedding: bytes are `Nat`
values below 256, buffers are lists, machine-integer casts are explicit
`% 256` / `% 4294967296`, and operations that panic in the source are
modelled with an explicit out-of-bounds outcome.
-/

/-- Big-endian serialization of a 32-bit word, as in `BufMut::put_u32`
applied after an `as u32` cast (digit extraction truncates to 32 bits). -/
def writeU32 (n : Nat) : List Nat :=
  [n / 16777216 % 256, n / 65536 % 256, n / 256 % 256, n % 256]

/-- Big-endian read of the first four bytes, as in `Buf::get_u32` and the
peeking cursor of `decode_head`. Callers guard the length first, matching
the source's explicit length checks / panics. -/
def readU32 : List Nat → Nat
  | a :: b :: c :: d :: _ => ((a % 256 * 256 + b % 256) * 256 + c % 256) * 256 + d % 256
  | _ => 0

/-- `Packet` from src/codec.rs: decoded payload plus optional MAC. -/
structure Packet where
  payload : List Nat
  mac : Option (List Nat)
deriving DecidableEq, Repr

/-- The configuration fields of `PacketCodec` (src/codec.rs). The decode
state machine is passed explicitly as a `DecodeState`, and the RNG used for
padding is passed explicitly to `encode`. -/
structure PacketCodec where
  max_packet_size : Nat
  mac_length : Nat
  cipher_block_size : Nat
deriving DecidableEq, Repr

/-- `DecodeState` from src/codec.rs. -/
inductive DecodeState where
  | Head
  | Data (n : Nat)
deriving DecidableEq, Repr

/-- Model of a `BytesMut` receive buffer: its byte contents and its
reserved capacity. -/
structure BytesMut where
  data : List Nat
  cap : Nat
deriving DecidableEq, Repr

/-- `BytesMut::reserve(additional)`: ensure capacity for `len + additional`
bytes; contents are untouched. -/
def BytesMut.reserve (b : BytesMut) (additional : Nat) : BytesMut :=
  { b with cap := max b.cap (b.data.length + additional) }

/-- Appending one byte to the buffer, as the transport does between decode
attempts. -/
def BytesMut.push (b : BytesMut) (x : Nat) : BytesMut :=
  { data := b.data ++ [x], cap := max b.cap (b.data.length + 1) }

/-- The `io::Error` values produced by the codec. -/
inductive CodecError where
  | packetTooLarge (n : Nat)
  | packetTooSmall
  | encodeTooLarge (n : Nat)
deriving DecidableEq, Repr

/-- `PacketCodec::decode_head`: peek the 4-byte big-endian length prefix,
bound the claimed total frame size, then reserve buffer capacity.
Returns the possibly-updated buffer alongside the result. -/
def PacketCodec.decode_head (self : PacketCodec) (src : BytesMut) :
    Except CodecError (Option Nat) × BytesMut :=
  if src.data.length < 4 then (.ok none, src)
  else
    let packet_length := readU32 src.data
    let total_frame_size := 4 + packet_length + self.mac_length
    if total_frame_size > self.max_packet_size then
      (.error (.packetTooLarge total_frame_size), src)
    else if packet_length < 1 then
      (.error .packetTooSmall, src)
    else
      (.ok (some total_frame_size), src.reserve (total_frame_size - src.data.length))

/-- `PacketCodec::decode_data`: split off exactly `n` bytes once available. -/
def decode_data (n : Nat) (src : BytesMut) : Option (List Nat) × BytesMut :=
  if src.data.length < n then (none, src)
  else (some (src.data.take n), { src with data := src.data.drop n })

/-- Outcome of one `decode` call. `oob` models a Rust panic from a `Buf`
read past the end of the buffer (including the wrapped payload-length
subtraction, whose huge `copy_to_bytes` count panics). -/
inductive DecodeOutcome where
  | oob
  | err (e : CodecError)
  | incomplete
  | packet (p : Packet)
deriving DecidableEq, Repr

/-- The frame-unpacking tail of `PacketCodec::decode`: re-read
`packet_length` and `padding_length` from the split-off frame, compute
`n1 = packet_length - padding_length - 1` in wrapping `u32` arithmetic,
then extract payload, skip padding, and extract the MAC. -/
def unpackFrame (self : PacketCodec) (frame : List Nat) : DecodeOutcome :=
  if frame.length < 4 then .oob
  else
    let packet_length := readU32 frame
    match frame.drop 4 with
    | [] => .oob
    | pb :: r2 =>
      let padding_length := pb % 256
      let n1 := (packet_length + (4294967296 - (padding_length + 1))) % 4294967296
      if r2.length < n1 then .oob
      else
        let payload := r2.take n1
        let r3 := r2.drop n1
        if r3.length < padding_length then .oob
        else
          let r4 := r3.drop padding_length
          if self.mac_length > 0 then
            if r4.length < self.mac_length then .oob
            else .packet { payload := payload, mac := some (r4.take self.mac_length) }
          else .packet { payload := payload, mac := none }

/-- The part of `decode` that runs once the frame size `n` is known: try
`decode_data`, and on success reset to `Head`, pre-reserve head capacity,
and unpack the frame. -/
def PacketCodec.decodeBody (self : PacketCodec) (n : Nat) (src : BytesMut) :
    DecodeOutcome × DecodeState × BytesMut :=
  match decode_data n src with
  | (none, src') => (.incomplete, .Data n, src')
  | (some frame, src') =>
    (unpackFrame self frame, .Head, src'.reserve (4 - src'.data.length))

/-- `PacketCodec::decode` (the `Decoder` impl), with the state-machine
cursor passed and returned explicitly. -/
def PacketCodec.decode (self : PacketCodec) (st : DecodeState) (src : BytesMut) :
    DecodeOutcome × DecodeState × BytesMut :=
  match st with
  | .Head =>
    match self.decode_head src with
    | (.error e, src') => (.err e, .Head, src')
    | (.ok none, src') => (.incomplete, .Head, src')
    | (.ok (some n), src') => self.decodeBody n src'
  | .Data n => self.decodeBody n src

/-- `PacketCodec::calculate_padding_length`, including the final `as u8`
truncation. -/
def PacketCodec.calculate_padding_length (self : PacketCodec) (payload_len : Nat) : Nat :=
  let block_size := if self.cipher_block_size = 0 then 8 else max self.cipher_block_size 8
  let block_size := max block_size 8
  let current_len := 4 + 1 + payload_len
  let padding_len := block_size - current_len % block_size
  let padding_len := if padding_len < 4 then padding_len + block_size else padding_len
  padding_len % 256

/-- `PacketCodec::encode` (the `Encoder` impl): frame the payload. The
random source is passed as `rng` (the bytes `SystemRandom::fill` would
produce for a request of the given size); zero padding is used when no
cipher is active. The output is appended to `dst`. -/
def PacketCodec.encode (self : PacketCodec) (rng : Nat → List Nat) (payload : List Nat)
    (dst : List Nat) : Except CodecError (List Nat) :=
  let padding_length := self.calculate_padding_length payload.length
  let packet_length := 1 + payload.length + padding_length
  let total_size := 4 + packet_length + self.mac_length
  if total_size > self.max_packet_size then .error (.encodeTooLarge total_size)
  else
    .ok (dst ++ writeU32 packet_length ++ padding_length :: payload ++
      (if self.cipher_block_size = 0 then List.replicate padding_length 0
       else rng padding_length))

/-- Drive `decode` once per arriving byte, as the transport loop does,
collecting each call's outcome. -/
def feed (self : PacketCodec) :
    DecodeState × BytesMut → List Nat → List DecodeOutcome × (DecodeState × BytesMut)
  | s, [] => ([], s)
  | (st, buf), x :: rest =>
    let r := self.decode st (buf.push x)
    let rs := feed self (r.2.1, r.2.2) rest
    (r.1 :: rs.1, rs.2)

/-- A complete, well-formed wire frame for the given codec configuration:
all bytes are bytes, the buffer holds exactly `4 + packet_length +
mac_length` bytes, the size limit is met, `packet_length ≥ 1`, and the
padding-length byte leaves a nonnegative payload length. -/
def WellFormed (self : PacketCodec) (frame : List Nat) : Prop :=
  (∀ b ∈ frame, b < 256) ∧
  frame.length = 4 + readU32 frame + self.mac_length ∧
  4 + readU32 frame + self.mac_length ≤ self.max_packet_size ∧
  1 ≤ readU32 frame ∧
  (frame.drop 4).headD 0 + 1 ≤ readU32 frame

instance (self : PacketCodec) (frame : List Nat) : Decidable (WellFormed self frame) := by
  unfold WellFormed; infer_instance

/-! ## Message layer (src/message.rs) -/

/-- `MessageType` from src/message.rs: the full registry of wire codes. -/
inductive MessageType where
  | Disconnect
  | Ignore
  | Unimplemented
  | Debug
  | ServiceRequest
  | ServiceAccept
  | Kexinit
  | Newkeys
  | UserauthRequest
  | UserauthFailure
  | UserauthSuccess
  | UserauthBanner
  | GlobalRequest
  | RequestSuccess
  | RequestFailure
  | ChannelOpen
  | ChannelOpenConfirmation
  | ChannelOpenFailure
  | ChannelWindowAdjust
  | ChannelData
  | ChannelExtendedData
  | ChannelEof
  | ChannelClose
  | ChannelRequest
  | ChannelSuccess
  | ChannelFailure
deriving DecidableEq, Repr

/-- `ParseError` from src/message.rs. -/
inductive ParseError where
  | InvalidNameList
  | InvalidLength
  | UnsupportedMessage (t : MessageType)
  | UnknownMessageType (code : Nat)
deriving DecidableEq, Repr

/-- `impl TryFrom<u8> for MessageType`: only codes 1 and 20 are mapped. -/
def tryFromU8 (value : Nat) : Except ParseError MessageType :=
  if value = 1 then .ok .Disconnect
  else if value = 20 then .ok .Kexinit
  else .error (.UnknownMessageType value)

/-- Outcome of running a parser over a `Buf`: an out-of-bounds read
(a Rust panic), a `ParseError`, or a value plus the unconsumed rest. -/
inductive POut (α : Type) where
  | oob
  | error (e : ParseError)
  | ok (a : α) (rest : List Nat)
deriving DecidableEq, Repr

/-- The parsing computations of src/message.rs: state-passing over the
remaining input bytes. -/
def PM (α : Type) := List Nat → POut α

instance : Monad PM where
  pure a := fun s => .ok a s
  bind m f := fun s =>
    match m s with
    | .oob => .oob
    | .error e => .error e
    | .ok a s' => f a s'

/-- `Buf::get_u8`: consume one byte, panicking when none remains. -/
def getU8 : PM Nat := fun s =>
  match s with
  | [] => .oob
  | b :: rest => .ok (b % 256) rest

/-- `Buf::get_u32`: consume four big-endian bytes. -/
def getU32 : PM Nat := do
  let a ← getU8
  let b ← getU8
  let c ← getU8
  let d ← getU8
  pure (((a * 256 + b) * 256 + c) * 256 + d)

/-- `Buf::copy_to_bytes(n)` (also covering `copy_to_slice` for the
cookie): consume exactly `n` bytes, panicking when fewer remain. -/
def copyToBytes (n : Nat) : PM (List Nat) := fun s =>
  if s.length < n then .oob else .ok (s.take n) (s.drop n)

/-- `Buf::advance(n)` semantics are covered by `copyToBytes` with the
result discarded; the codec side models it directly. Raise a `ParseError`. -/
def throwP (e : ParseError) : PM α := fun _ => .error e

/-- `Buf::has_remaining`. -/
def hasRemaining : PM Bool := fun s => .ok (!s.isEmpty) s

/-- Is a byte a UTF-8 continuation byte (0x80–0xBF)? -/
def isCont (b : Nat) : Bool := 128 ≤ b && b ≤ 191

/-- UTF-8 validity of a byte sequence, as checked by
`String::from_utf8` (standard Unicode table, surrogates and overlongs
rejected). -/
def utf8Valid : List Nat → Bool
  | [] => true
  | b :: rest =>
    if b ≤ 127 then utf8Valid rest
    else if 194 ≤ b && b ≤ 223 then
      match rest with
      | c1 :: r => isCont c1 && utf8Valid r
      | [] => false
    else if b = 224 then
      match rest with
      | c1 :: c2 :: r => (160 ≤ c1 && c1 ≤ 191) && isCont c2 && utf8Valid r
      | _ => false
    else if (225 ≤ b && b ≤ 236) || b = 238 || b = 239 then
      match rest with
      | c1 :: c2 :: r => isCont c1 && isCont c2 && utf8Valid r
      | _ => false
    else if b = 237 then
      match rest with
      | c1 :: c2 :: r => (128 ≤ c1 && c1 ≤ 159) && isCont c2 && utf8Valid r
      | _ => false
    else if b = 240 then
      match rest with
      | c1 :: c2 :: c3 :: r => (144 ≤ c1 && c1 ≤ 191) && isCont c2 && isCont c3 && utf8Valid r
      | _ => false
    else if 241 ≤ b && b ≤ 243 then
      match rest with
      | c1 :: c2 :: c3 :: r => isCont c1 && isCont c2 && isCont c3 && utf8Valid r
      | _ => false
    else if b = 244 then
      match rest with
      | c1 :: c2 :: c3 :: r => (128 ≤ c1 && c1 ≤ 143) && isCont c2 && isCont c3 && utf8Valid r
      | _ => false
    else false

/-- Rust `str::split(',')` on the bytes of a string: always returns at
least one (possibly empty) token. -/
def splitComma : List Nat → List (List Nat)
  | [] => [[]]
  | b :: rest =>
    if b = 44 then [] :: splitComma rest
    else
      match splitComma rest with
      | t :: ts => (b :: t) :: ts
      | [] => [[b]]

/-- `parse_name_list` from src/message.rs: u32 length prefix, that many
bytes, UTF-8 validated, split on `,`. Names are kept as byte lists. -/
def parse_name_list : PM (List (List Nat)) := do
  let len ← getU32
  let content ← copyToBytes len
  if utf8Valid content then pure (splitComma content)
  else throwP .InvalidNameList

/-- `put_name_list` from src/message.rs: join with `,`, length-prefix. -/
def put_name_list (list : List (List Nat)) : List Nat :=
  let j := List.intercalate [44] list
  writeU32 j.length ++ j

/-- `put_string` from src/message.rs. -/
def put_string (s : List Nat) : List Nat :=
  writeU32 s.length ++ s

/-- `Kexinit` from src/message.rs (strings as byte lists). -/
structure Kexinit where
  cookie : List Nat
  kex_algorithms : List (List Nat)
  server_host_key_algorithms : List (List Nat)
  encryption_algorithms_client_to_server : List (List Nat)
  encryption_algorithms_server_to_client : List (List Nat)
  mac_algorithms_client_to_server : List (List Nat)
  mac_algorithms_server_to_client : List (List Nat)
  compression_algorithms_client_to_server : List (List Nat)
  compression_algorithms_server_to_client : List (List Nat)
  languages_client_to_server : List (List Nat)
  languages_server_to_client : List (List Nat)
  first_kex_packet_follows : Bool
  __reserved : Nat
deriving DecidableEq, Repr

/-- `ReasonCode` from src/message.rs. -/
inductive ReasonCode where
  | HostNotAllowedToConnect
  | ProtocolError
  | KeyExchangeFailed
  | Reserved
  | MacError
  | CompressionError
  | ServiceNotAvailable
  | ProtocolVersionNotSupported
  | HostKeyNotVerifiable
  | ConnectionLost
  | ByApplication
  | TooManyConnections
  | AuthCancelledByUser
  | NoMoreAuthMethodsAvailable
  | IllegalUserName
deriving DecidableEq, Repr

/-- The `#[repr(u32)]` discriminants of `ReasonCode`. -/
def ReasonCode.toU32 : ReasonCode → Nat
  | .HostNotAllowedToConnect => 1
  | .ProtocolError => 2
  | .KeyExchangeFailed => 3
  | .Reserved => 4
  | .MacError => 5
  | .CompressionError => 6
  | .ServiceNotAvailable => 7
  | .ProtocolVersionNotSupported => 8
  | .HostKeyNotVerifiable => 9
  | .ConnectionLost => 10
  | .ByApplication => 11
  | .TooManyConnections => 12
  | .AuthCancelledByUser => 13
  | .NoMoreAuthMethodsAvailable => 14
  | .IllegalUserName => 15

/-- `Disconnect` from src/message.rs. -/
structure Disconnect where
  reason_code : ReasonCode
  description : List Nat
  language_tag : List Nat
deriving DecidableEq, Repr

/-- `Message` from src/message.rs. -/
inductive Message where
  | Disconnect (d : Disconnect)
  | Kexinit (k : Kexinit)
deriving DecidableEq, Repr

/-- `Message::parse`: dispatch on the first byte via the registry's
`TryFrom`, decode Kexinit's fixed layout, reject everything else. -/
def Message.parse : PM Message := do
  let code ← getU8
  let mt ← match tryFromU8 code with
    | .ok t => pure t
    | .error e => throwP e
  match mt with
  | .Kexinit => do
    let cookie ← copyToBytes 16
    let kex_algorithms ← parse_name_list
    let server_host_key_algorithms ← parse_name_list
    let encryption_algorithms_client_to_server ← parse_name_list
    let encryption_algorithms_server_to_client ← parse_name_list
    let mac_algorithms_client_to_server ← parse_name_list
    let mac_algorithms_server_to_client ← parse_name_list
    let compression_algorithms_client_to_server ← parse_name_list
    let compression_algorithms_server_to_client ← parse_name_list
    let languages_client_to_server ← parse_name_list
    let languages_server_to_client ← parse_name_list
    let fkpf ← getU8
    let rsv ← getU32
    let rem ← hasRemaining
    if rem then throwP .InvalidLength
    else
      pure (.Kexinit {
        cookie := cookie
        kex_algorithms := kex_algorithms
        server_host_key_algorithms := server_host_key_algorithms
        encryption_algorithms_client_to_server := encryption_algorithms_client_to_server
        encryption_algorithms_server_to_client := encryption_algorithms_server_to_client
        mac_algorithms_client_to_server := mac_algorithms_client_to_server
        mac_algorithms_server_to_client := mac_algorithms_server_to_client
        compression_algorithms_client_to_server := compression_algorithms_client_to_server
        compression_algorithms_server_to_client := compression_algorithms_server_to_client
        languages_client_to_server := languages_client_to_server
        languages_server_to_client := languages_server_to_client
        first_kex_packet_follows := fkpf != 0
        __reserved := rsv })
  | ty => throwP (.UnsupportedMessage ty)

/-- `Disconnect::into_payload`. -/
def Disconnect.into_payload (self : Disconnect) : List Nat :=
  1 :: (writeU32 self.reason_code.toU32 ++
    put_string self.description ++ put_string self.language_tag)

/-- `Kexinit::into_payload`. -/
def Kexinit.into_payload (self : Kexinit) : List Nat :=
  20 :: (self.cookie ++
    put_name_list self.kex_algorithms ++
    put_name_list self.server_host_key_algorithms ++
    put_name_list self.encryption_algorithms_client_to_server ++
    put_name_list self.encryption_algorithms_server_to_client ++
    put_name_list self.mac_algorithms_client_to_server ++
    put_name_list self.mac_algorithms_server_to_client ++
    put_name_list self.compression_algorithms_client_to_server ++
    put_name_list self.compression_algorithms_server_to_client ++
    put_name_list self.languages_client_to_server ++
    put_name_list self.languages_server_to_client ++
    (if self.first_kex_packet_follows then 1 else 0) :: writeU32 self.__reserved)

/-- `Message::into_payload`. -/
def Message.into_payload : Message → List Nat
  | .Disconnect d => d.into_payload
  | .Kexinit k => k.into_payload

/-! ## Helper lemmas -/

theorem PM.run_bind {α β : Type} (m : PM α) (f : α → PM β) (s : List Nat) :
    (m >>= f) s = match m s with
      | .oob => .oob
      | .error e => .error e
      | .ok a s' => f a s' := rfl

theorem PM.run_pure {α : Type} (a : α) (s : List Nat) :
    (pure a : PM α) s = .ok a s := rfl

instance {ε α : Type} [DecidableEq ε] [DecidableEq α] : DecidableEq (Except ε α) :=
  fun a b =>
    match a, b with
    | .ok x, .ok y =>
      if h : x = y then .isTrue (by rw [h]) else .isFalse (by simp [h])
    | .error x, .error y =>
      if h : x = y then .isTrue (by rw [h]) else .isFalse (by simp [h])
    | .ok _, .error _ => .isFalse (by simp)
    | .error _, .ok _ => .isFalse (by simp)

theorem readU32_lt (l : List Nat) : readU32 l < 4294967296 := by
  unfold readU32
  split
  · omega
  · norm_num

theorem readU32_writeU32 (n : Nat) (r : List Nat) (h : n < 4294967296) :
    readU32 (writeU32 n ++ r) = n := by
  simp only [writeU32, List.cons_append, List.nil_append, readU32]
  omega

/-! ## Claim theorems -/

/-- C1: the spec requires the payload-length subtraction
`payload_len = packet_length - padding_length - 1` to be checked so that a
frame with `padding_length + 1 > packet_length` fails with a malformed-frame
error. The code performs the subtraction unchecked: on the complete frame
`[0,0,0,1,255]` (packet_length 1, padding_length 255) `decode` hits an
out-of-bounds read (a Rust panic via the wrapped `u32` subtraction feeding
`copy_to_bytes`) instead of returning an error. -/
theorem decode_underflow_is_oob :
    PacketCodec.decode ⟨35000, 0, 0⟩ .Head ⟨[0, 0, 0, 1, 255], 0⟩
      = (.oob, .Head, ⟨[], 5⟩) := by decide

/-- C8: `Message::parse` panics (modelled as `oob`) on truncated input:
a payload holding only the Kexinit type byte 20, and a Kexinit whose first
name-list claims 5 bytes with none remaining. -/
theorem parse_truncated_oob :
    Message.parse [20] = .oob ∧
    Message.parse (20 :: (List.replicate 16 0 ++ [0, 0, 0, 5])) = .oob := by
  exact ⟨rfl, rfl⟩

/-- C9: a zero-length name-list field decodes to the one-element list
holding the empty string, never the empty list; `put_name_list` of the
empty list emits the zero-length field, so the empty list does not
round-trip. -/
theorem empty_name_list_no_roundtrip (rest : List Nat) :
    parse_name_list (0 :: 0 :: 0 :: 0 :: rest) = .ok [[]] rest ∧
    put_name_list [] = [0, 0, 0, 0] ∧
    parse_name_list (put_name_list [] ++ rest) = .ok [[]] rest ∧
    ([[]] : List (List Nat)) ≠ [] := by
  exact ⟨rfl, rfl, rfl, by simp⟩

/-- C2 counterexample: with `(cipher_block_size, mac_length) = (8, 16)`,
`encode` emits no MAC bytes (the collaborator appends them), so feeding
`encode`'s own output to an identically configured `decode` returns
"incomplete", not a `Packet`. -/
theorem roundtrip_mac_counterexample :
    PacketCodec.encode ⟨35000, 16, 8⟩ (fun n => List.replicate n 7) [0] []
      = .ok [0, 0, 0, 12, 10, 0, 7, 7, 7, 7, 7, 7, 7, 7, 7, 7] ∧
    (PacketCodec.decode ⟨35000, 16, 8⟩ .Head
        ⟨[0, 0, 0, 12, 10, 0, 7, 7, 7, 7, 7, 7, 7, 7, 7, 7], 0⟩).1
      = .incomplete := by decide

/-- C3 counterexample: code 2 names the registry variant `Ignore`, which
has no decoder, yet `parse` reports `UnknownMessageType 2` — not
`UnsupportedMessage Ignore` — because the registry's `TryFrom` maps only
codes 1 and 20. -/
theorem parse_registry_gap_counterexample :
    Message.parse [2] = .error (.UnknownMessageType 2) ∧
    Message.parse [2] ≠ .error (.UnsupportedMessage .Ignore) := by decide

/-- C3 (amended): `parse` returns `UnknownMessageType code` for every
first byte other than 1 and 20 — including codes naming registry variants
without decoders — and `UnsupportedMessage Disconnect` for code 1, the
single mapped-but-unimplemented variant. -/
theorem parse_dispatch_amended (b : Nat) (rest : List Nat) (hb : b < 256)
    (h1 : b ≠ 1) (h20 : b ≠ 20) :
    Message.parse (b :: rest) = .error (.UnknownMessageType b) ∧
    Message.parse (1 :: rest) = .error (.UnsupportedMessage .Disconnect) := by
  constructor
  · show (getU8 >>= _) (b :: rest) = _
    rw [PM.run_bind]
    have hg : getU8 (b :: rest) = .ok b rest := by
      simp [getU8, Nat.mod_eq_of_lt hb]
    rw [hg]
    simp only [tryFromU8, h1, h20, if_false]
    rfl
  · rfl

/-- C3 amended, instantiated at code 5. -/
theorem parse_dispatch_amended_witness :
    Message.parse [5] = .error (.UnknownMessageType 5) ∧
    Message.parse [1] = .error (.UnsupportedMessage .Disconnect) :=
  parse_dispatch_amended 5 [] (by decide) (by decide) (by decide)

/-- C4 counterexample: the Disconnect payload built by `into_payload`
does not decode back — `Message::parse` has no Disconnect decoder and
returns `UnsupportedMessage Disconnect`. -/
theorem disconnect_no_decoder_counterexample :
    Message.parse (Disconnect.into_payload ⟨.ByApplication, [98, 121, 101], []⟩)
      = .error (.UnsupportedMessage .Disconnect) := by decide

/-- C4 (amended): the Disconnect with reason 11 (ByApplication),
description "bye", empty language tag encodes via `into_payload` to the
documented wire layout (type tag 1, big-endian reason code, two
length-prefixed strings), and `Message::parse` on that payload fails with
`UnsupportedMessage Disconnect` rather than reproducing the fields. -/
theorem disconnect_payload_amended :
    Disconnect.into_payload ⟨.ByApplication, [98, 121, 101], []⟩
      = [1, 0, 0, 0, 11, 0, 0, 0, 3, 98, 121, 101, 0, 0, 0, 0] ∧
    Message.parse [1, 0, 0, 0, 11, 0, 0, 0, 3, 98, 121, 101, 0, 0, 0, 0]
      = .error (.UnsupportedMessage .Disconnect) := by decide

/-- C6 counterexample: with `cipher_block_size = 256` and a 251-byte
payload the computed padding is 256, which the `as u8` cast truncates to
0, violating `4 ≤ padding_length`. -/
theorem padding_u8_truncation_counterexample :
    PacketCodec.calculate_padding_length ⟨35000, 0, 256⟩ 251 = 0 ∧
    ¬ 4 ≤ PacketCodec.calculate_padding_length ⟨35000, 0, 256⟩ 251 := by decide

/-- Helper: the effective block size computed by
`calculate_padding_length` equals `max cipher_block_size 8`, and the
padding value with its bounds, assuming the effective block size fits the
`u8` cast (`≤ 252`, so the pre-cast padding of at most block+3 is ≤ 255). -/
theorem calculate_padding_spec (self : PacketCodec) (payload_len : Nat)
    (hblock : max self.cipher_block_size 8 ≤ 252) :
    4 ≤ self.calculate_padding_length payload_len ∧
    self.calculate_padding_length payload_len ≤ 255 ∧
    (4 + 1 + payload_len + self.calculate_padding_length payload_len)
      % max self.cipher_block_size 8 = 0 := by
  have hbs : (if self.cipher_block_size = 0 then 8
      else max self.cipher_block_size 8) = max self.cipher_block_size 8 := by
    rcases Nat.eq_zero_or_pos self.cipher_block_size with h | h
    · simp [h]
    · rw [if_neg (Nat.pos_iff_ne_zero.mp h)]
  have hbs2 : max (max self.cipher_block_size 8) 8 = max self.cipher_block_size 8 := by
    rw [max_assoc, max_self]
  simp only [PacketCodec.calculate_padding_length]
  rw [hbs, hbs2]
  set block := max self.cipher_block_size 8 with hbdef
  have hbpos : 0 < block := lt_of_lt_of_le (by norm_num) (le_max_right _ _)
  set cur := 4 + 1 + payload_len with hcur
  have hmod : cur % block < block := Nat.mod_lt _ hbpos
  have hdm := Nat.div_add_mod cur block
  set p0 := block - cur % block with hp0
  have hsum : cur + p0 = block * (cur / block) + block := by omega
  have hdvd : (cur + p0) % block = 0 := by
    rw [hsum, ← Nat.mul_succ]
    exact Nat.mul_mod_right _ _
  have hb8 : 8 ≤ block := le_max_right _ _
  by_cases hsmall : p0 < 4
  · rw [if_pos hsmall]
    have hle : p0 + block ≤ 255 := by omega
    rw [Nat.mod_eq_of_lt (by omega)]
    refine ⟨by omega, by omega, ?_⟩
    have hre : 4 + 1 + payload_len + (p0 + block) = cur + p0 + block := by omega
    rw [hre, Nat.add_mod_right]
    exact hdvd
  · rw [if_neg hsmall]
    rw [Nat.mod_eq_of_lt (by omega)]
    exact ⟨by omega, by omega, hdvd⟩

/-- C6 (amended): for every payload length and every configuration whose
effective block size `max(cipher_block_size, 8)` is at most 252 (so the
pre-cast padding always fits the `u8`), the encode-path padding satisfies
`4 ≤ padding_length ≤ 255` and
`(4 + 1 + payload_len + padding_length) mod max(cipher_block_size, 8) = 0`. -/
theorem padding_bounds_amended (self : PacketCodec) (payload_len : Nat)
    (hblock : max self.cipher_block_size 8 ≤ 252) :
    4 ≤ self.calculate_padding_length payload_len ∧
    self.calculate_padding_length payload_len ≤ 255 ∧
    (4 + 1 + payload_len + self.calculate_padding_length payload_len)
      % max self.cipher_block_size 8 = 0 :=
  calculate_padding_spec self payload_len hblock

/-- C6 amended, instantiated: unencrypted codec, empty payload. -/
theorem padding_bounds_amended_witness :
    4 ≤ PacketCodec.calculate_padding_length ⟨35000, 0, 0⟩ 0 ∧
    PacketCodec.calculate_padding_length ⟨35000, 0, 0⟩ 0 ≤ 255 ∧
    (4 + 1 + 0 + PacketCodec.calculate_padding_length ⟨35000, 0, 0⟩ 0) % max 0 8 = 0 :=
  padding_bounds_amended ⟨35000, 0, 0⟩ 0 (by decide)

/-- C5: whenever the buffer holds at least 4 bytes and the claimed
`total_frame_size = 4 + packet_length + mac_length` exceeds
`max_packet_size`, `decode_head` returns the size-limit error and the
buffer — its reserved capacity included — is returned untouched: the
rejection happens before any capacity is reserved. -/
theorem decode_head_size_limit (self : PacketCodec) (src : BytesMut)
    (h4 : 4 ≤ src.data.length)
    (hover : self.max_packet_size < 4 + readU32 src.data + self.mac_length) :
    self.decode_head src
      = (.error (.packetTooLarge (4 + readU32 src.data + self.mac_length)), src) := by
  simp only [PacketCodec.decode_head]
  rw [if_neg (Nat.not_lt.mpr h4), if_pos hover]

/-- C5, instantiated: a 4-byte prefix claiming a 103-byte frame against a
5-byte ceiling is rejected with capacity still 7. -/
theorem decode_head_size_limit_witness :
    PacketCodec.decode_head ⟨5, 0, 0⟩ ⟨[0, 0, 0, 99], 7⟩
      = (.error (.packetTooLarge 103), ⟨[0, 0, 0, 99], 7⟩) :=
  decode_head_size_limit ⟨5, 0, 0⟩ ⟨[0, 0, 0, 99], 7⟩ (by decide) (by decide)

/-- Helper: `unpackFrame` never reports "incomplete" — partial input is
detected before the frame is split off, never during unpacking. -/
theorem unpackFrame_ne_incomplete (self : PacketCodec) (frame : List Nat) :
    unpackFrame self frame ≠ .incomplete := by
  simp only [unpackFrame]
  split
  · simp
  · split
    · simp
    · split_ifs <;> simp

/-- Helper: on every outcome of `decode_head`, the buffer's byte contents
are unchanged (the length prefix is only peeked). -/
theorem decode_head_data_eq (self : PacketCodec) (src : BytesMut) :
    (self.decode_head src).2.data = src.data := by
  simp only [PacketCodec.decode_head]
  split_ifs <;> rfl

/-- Helper: when `decode_head` yields a frame size, it is
`4 + packet_length + mac_length` for the peeked length prefix, and the
buffer held at least 4 bytes. -/
theorem decode_head_some (self : PacketCodec) (src : BytesMut) (n : Nat) (out : BytesMut)
    (h : self.decode_head src = (.ok (some n), out)) :
    n = 4 + readU32 src.data + self.mac_length ∧ 4 ≤ src.data.length := by
  simp only [PacketCodec.decode_head] at h
  split_ifs at h with h1 h2 h3
  · simp at h
  · simp at h
  · simp at h
  · rw [Prod.mk.injEq] at h
    obtain ⟨ha, _⟩ := h
    simp only [Except.ok.injEq, Option.some.injEq] at ha
    exact ⟨ha.symm, Nat.not_lt.mp h1⟩

/-- Helper: `unpackFrame` never returns a `CodecError` — the decode
errors all come from `decode_head`, before any bytes are split off. -/
theorem unpackFrame_ne_err (self : PacketCodec) (frame : List Nat) (e : CodecError) :
    unpackFrame self frame ≠ .err e := by
  simp only [unpackFrame]
  split
  · simp
  · split
    · simp
    · split_ifs <;> simp

/-- C10: when `decode` reports "incomplete" the receive buffer's bytes
are untouched, and likewise on every error return (size-limit and
too-small errors are raised before any byte is consumed); bytes are
removed only when a `Packet` is returned, and then exactly the computed
total frame size is split off the front: `n` from the `Data n` state, or
`4 + packet_length + mac_length` freshly computed from the peeked prefix
in the `Head` state. -/
theorem decode_buffer_discipline (self : PacketCodec) (st : DecodeState) (src : BytesMut)
    (out : DecodeOutcome) (st' : DecodeState) (src' : BytesMut)
    (h : self.decode st src = (out, st', src')) :
    (out = .incomplete → src'.data = src.data) ∧
    (∀ e, out = .err e → src'.data = src.data) ∧
    (∀ p, out = .packet p →
      ∃ n, src'.data = src.data.drop n ∧ n ≤ src.data.length ∧
        (st = .Data n ∨ (st = .Head ∧ n = 4 + readU32 src.data + self.mac_length))) := by
  have hbody : ∀ n src0, src0.data = src.data →
      self.decodeBody n src0 = (out, st', src') →
      (st = .Data n ∨ (st = .Head ∧ n = 4 + readU32 src.data + self.mac_length)) →
      (out = .incomplete → src'.data = src.data) ∧
      (∀ e, out = .err e → src'.data = src.data) ∧
      (∀ p, out = .packet p →
        ∃ m, src'.data = src.data.drop m ∧ m ≤ src.data.length ∧
          (st = .Data m ∨ (st = .Head ∧ m = 4 + readU32 src.data + self.mac_length))) := by
    intro n src0 hdata hb hst
    simp only [PacketCodec.decodeBody, decode_data] at hb
    split_ifs at hb with hlt
    · rw [Prod.mk.injEq, Prod.mk.injEq] at hb
      obtain ⟨h1, h2, h3⟩ := hb
      refine ⟨fun _ => by rw [← h3, hdata], fun e he => ?_, fun p hp => ?_⟩
      · have : DecodeOutcome.incomplete = .err e := h1.trans he
        simp at this
      · have : DecodeOutcome.incomplete = .packet p := h1.trans hp
        simp at this
    · rw [Prod.mk.injEq, Prod.mk.injEq] at hb
      obtain ⟨h1, h2, h3⟩ := hb
      refine ⟨fun hinc => absurd (h1.trans hinc) (unpackFrame_ne_incomplete self _),
        fun e he => absurd (h1.trans he) (unpackFrame_ne_err self _ e),
        fun p hp => ?_⟩
      refine ⟨n, ?_, ?_, hst⟩
      · rw [← h3]
        simp [BytesMut.reserve, hdata]
      · rw [← hdata]
        exact Nat.not_lt.mp hlt
  cases st with
  | Data n =>
    exact hbody n src rfl h (Or.inl rfl)
  | Head =>
    rcases hh : self.decode_head src with ⟨res, src0⟩
    have hd : src0.data = src.data := by
      have := decode_head_data_eq self src
      rw [hh] at this
      exact this
    rcases res with e | o
    · have hval : self.decode .Head src = (.err e, .Head, src0) := by
        unfold PacketCodec.decode
        rw [hh]
      rw [hval] at h
      rw [Prod.mk.injEq, Prod.mk.injEq] at h
      obtain ⟨h1, h2, h3⟩ := h
      refine ⟨fun hinc => ?_, fun e' he' => ?_, fun p hp => ?_⟩
      · have : DecodeOutcome.err e = .incomplete := h1.trans hinc
        simp at this
      · rw [← h3, hd]
      · have : DecodeOutcome.err e = .packet p := h1.trans hp
        simp at this
    · rcases o with _ | n
      · have hval : self.decode .Head src = (.incomplete, .Head, src0) := by
          unfold PacketCodec.decode
          rw [hh]
        rw [hval] at h
        rw [Prod.mk.injEq, Prod.mk.injEq] at h
        obtain ⟨h1, h2, h3⟩ := h
        refine ⟨fun _ => by rw [← h3, hd], fun e he => ?_, fun p hp => ?_⟩
        · have : DecodeOutcome.incomplete = .err e := h1.trans he
          simp at this
        · have : DecodeOutcome.incomplete = .packet p := h1.trans hp
          simp at this
      · have hval : self.decode .Head src = self.decodeBody n src0 := by
          unfold PacketCodec.decode
          rw [hh]
        rw [hval] at h
        obtain ⟨hn, _⟩ := decode_head_some self src n src0 hh
        exact hbody n src0 hd h (Or.inr ⟨rfl, hn⟩)

/-- C10, instantiated: an incomplete decode (one buffered byte) leaves
the buffer bytes unchanged, and the error and packet implications hold
vacuously for this outcome. -/
theorem decode_buffer_discipline_witness :
    (DecodeOutcome.incomplete = .incomplete →
      (⟨[0], 0⟩ : BytesMut).data = (⟨[0], 0⟩ : BytesMut).data) ∧
    (∀ e, DecodeOutcome.incomplete = .err e →
      (⟨[0], 0⟩ : BytesMut).data = (⟨[0], 0⟩ : BytesMut).data) ∧
    (∀ p, DecodeOutcome.incomplete = .packet p →
      ∃ n, (⟨[0], 0⟩ : BytesMut).data = (⟨[0], 0⟩ : BytesMut).data.drop n ∧
        n ≤ (⟨[0], 0⟩ : BytesMut).data.length ∧
        (DecodeState.Head = .Data n ∨
          (DecodeState.Head = .Head ∧
            n = 4 + readU32 (⟨[0], 0⟩ : BytesMut).data
              + PacketCodec.mac_length ⟨35000, 0, 0⟩))) :=
  decode_buffer_discipline ⟨35000, 0, 0⟩ .Head ⟨[0], 0⟩ .incomplete .Head ⟨[0], 0⟩ (by decide)

/-- Helper: unpacking an encoder-shaped frame — length word, padding-length
byte, payload, `pad` padding bytes, MAC — recovers exactly the payload and
the MAC. -/
theorem unpackFrame_encoded (self : PacketCodec) (pad : Nat) (payload pads macB : List Nat)
    (hpadlen : pads.length = pad) (hpad256 : pad < 256)
    (hmac : macB.length = self.mac_length)
    (hpl : 1 + payload.length + pad < 4294967296) :
    unpackFrame self (writeU32 (1 + payload.length + pad) ++ pad :: (payload ++ (pads ++ macB)))
      = .packet ⟨payload, if self.mac_length = 0 then none else some macB⟩ := by
  have hw4 : (writeU32 (1 + payload.length + pad)).length = 4 := rfl
  have hread : readU32 (writeU32 (1 + payload.length + pad) ++ pad :: (payload ++ (pads ++ macB)))
      = 1 + payload.length + pad := readU32_writeU32 _ _ hpl
  have hdrop4 : (writeU32 (1 + payload.length + pad) ++ pad :: (payload ++ (pads ++ macB))).drop 4
      = pad :: (payload ++ (pads ++ macB)) := by
    rw [← hw4, List.drop_left]
  have hlen : (writeU32 (1 + payload.length + pad) ++ pad :: (payload ++ (pads ++ macB))).length
      = 4 + (1 + (payload.length + (pads.length + macB.length))) := by
    simp [writeU32]
    omega
  simp only [unpackFrame, hdrop4, hread]
  rw [if_neg (by rw [hlen]; omega)]
  simp only [Nat.mod_eq_of_lt hpad256]
  have hn1 : (1 + payload.length + pad + (4294967296 - (pad + 1))) % 4294967296
      = payload.length := by omega
  rw [hn1]
  rw [if_neg (by rw [List.length_append]; omega)]
  rw [List.take_left, List.drop_left]
  rw [if_neg (by rw [List.length_append, hpadlen]; omega)]
  have hd : List.drop pad (pads ++ macB) = macB := by
    rw [← hpadlen, List.drop_left]
  rw [hd]
  rcases Nat.eq_zero_or_pos self.mac_length with hm | hm
  · rw [if_neg (by omega), if_pos hm]
  · rw [if_pos hm, if_neg (by rw [hmac]; omega), ← hmac, List.take_length,
      if_neg (by omega)]

/-- Helper: `decode_head` accepts a prefix that passes both checks,
computing the total frame size and reserving capacity for it. -/
theorem decode_head_ok (self : PacketCodec) (src : BytesMut)
    (h4 : 4 ≤ src.data.length)
    (hmax : 4 + readU32 src.data + self.mac_length ≤ self.max_packet_size)
    (hpl : 1 ≤ readU32 src.data) :
    self.decode_head src = (.ok (some (4 + readU32 src.data + self.mac_length)),
      src.reserve (4 + readU32 src.data + self.mac_length - src.data.length)) := by
  simp only [PacketCodec.decode_head]
  rw [if_neg (Nat.not_lt.mpr h4), if_neg (by omega), if_neg (by omega)]

/-- Helper: in the `Head` state with an acceptable prefix, `decode`
proceeds to the data phase on the reserved buffer. -/
theorem decode_head_to_body (self : PacketCodec) (src : BytesMut)
    (h4 : 4 ≤ src.data.length)
    (hmax : 4 + readU32 src.data + self.mac_length ≤ self.max_packet_size)
    (hpl : 1 ≤ readU32 src.data) :
    self.decode .Head src = self.decodeBody (4 + readU32 src.data + self.mac_length)
      (src.reserve (4 + readU32 src.data + self.mac_length - src.data.length)) := by
  unfold PacketCodec.decode
  rw [decode_head_ok self src h4 hmax hpl]

/-- Helper: with too few buffered bytes the data phase reports
"incomplete" and leaves the buffer untouched. -/
theorem decodeBody_incomplete (self : PacketCodec) (n : Nat) (src : BytesMut)
    (h : src.data.length < n) :
    self.decodeBody n src = (.incomplete, .Data n, src) := by
  simp only [PacketCodec.decodeBody, decode_data]
  rw [if_pos h]

/-- Helper: with enough buffered bytes the data phase splits the frame
off and unpacks it. -/
theorem decodeBody_complete (self : PacketCodec) (n : Nat) (src : BytesMut)
    (h : n ≤ src.data.length) :
    self.decodeBody n src = (unpackFrame self (src.data.take n), .Head,
      BytesMut.reserve ⟨src.data.drop n, src.cap⟩ (4 - (src.data.drop n).length)) := by
  simp only [PacketCodec.decodeBody, decode_data]
  rw [if_neg (Nat.not_lt.mpr h)]

/-- Helper: decoding a full encoder-shaped frame (with the MAC bytes
appended) in the `Head` state yields the payload and MAC. -/
theorem decode_encoded (self : PacketCodec) (pad : Nat) (payload pads macB : List Nat)
    (hpadlen : pads.length = pad) (hpad256 : pad < 256)
    (hmac : macB.length = self.mac_length)
    (hpl : 1 + payload.length + pad < 4294967296)
    (hpmax : 4 + (1 + payload.length + pad) + self.mac_length ≤ self.max_packet_size)
    (cap : Nat) :
    (self.decode .Head
        ⟨writeU32 (1 + payload.length + pad) ++ pad :: (payload ++ (pads ++ macB)), cap⟩).1
      = .packet ⟨payload, if self.mac_length = 0 then none else some macB⟩ := by
  have hread : readU32 (writeU32 (1 + payload.length + pad) ++ pad :: (payload ++ (pads ++ macB)))
      = 1 + payload.length + pad := readU32_writeU32 _ _ hpl
  have hlen : (writeU32 (1 + payload.length + pad) ++ pad :: (payload ++ (pads ++ macB))).length
      = 4 + (1 + payload.length + pad) + self.mac_length := by
    simp [writeU32, hpadlen, hmac]
    omega
  rw [decode_head_to_body self _ (by simp only [hlen]; omega)
    (by simp only [hread]; exact hpmax) (by simp only [hread]; omega)]
  rw [decodeBody_complete self _ _ (by simp [BytesMut.reserve, hread, hlen])]
  simp only [BytesMut.reserve, hread, hlen]
  rw [show (4 + (1 + payload.length + pad) + self.mac_length)
      = (writeU32 (1 + payload.length + pad) ++ pad :: (payload ++ (pads ++ macB))).length
    from hlen.symm]
  rw [List.take_length]
  exact unpackFrame_encoded self pad payload pads macB hpadlen hpad256 hmac hpl

/-- Helper: full encode-then-decode round trip, for any configuration
whose effective block size fits the `u8` cast and whose ceiling leaves
room for the largest possible padding. -/
theorem roundtrip_general (self : PacketCodec) (payload : List Nat)
    (hblock : max self.cipher_block_size 8 ≤ 252)
    (rng : Nat → List Nat) (hrng : ∀ n, (rng n).length = n)
    (macB : List Nat) (hmacB : macB.length = self.mac_length)
    (hfit : 4 + (1 + payload.length + 255) + self.mac_length ≤ self.max_packet_size)
    (hpl32 : 1 + payload.length + 255 < 4294967296) (cap : Nat) :
    ∃ frame, self.encode rng payload [] = .ok frame ∧
      (self.decode .Head ⟨frame ++ macB, cap⟩).1
        = .packet ⟨payload, if self.mac_length = 0 then none else some macB⟩ := by
  obtain ⟨hp4, hp255, hpmod⟩ := calculate_padding_spec self payload.length hblock
  set pad := self.calculate_padding_length payload.length with hpaddef
  have hpadsl :
      (if self.cipher_block_size = 0 then List.replicate pad 0 else rng pad).length = pad := by
    by_cases h : self.cipher_block_size = 0 <;> simp [h, hrng]
  refine ⟨writeU32 (1 + payload.length + pad) ++ (pad :: payload) ++
    (if self.cipher_block_size = 0 then List.replicate pad 0 else rng pad), ?_, ?_⟩
  · simp only [PacketCodec.encode]
    rw [← hpaddef]
    rw [if_neg (by omega)]
    rw [List.nil_append]
  · have hdec := decode_encoded self pad payload
      (if self.cipher_block_size = 0 then List.replicate pad 0 else rng pad) macB
      hpadsl (by omega) hmacB (by omega) (by omega) cap
    rw [show (writeU32 (1 + payload.length + pad) ++ (pad :: payload) ++
        (if self.cipher_block_size = 0 then List.replicate pad 0 else rng pad)) ++ macB
        = writeU32 (1 + payload.length + pad) ++ pad :: (payload ++
          ((if self.cipher_block_size = 0 then List.replicate pad 0 else rng pad) ++ macB))
      from by simp [List.append_assoc]]
    exact hdec

/-- C2 (amended): for any payload of length 1–32768 and
`(cipher_block_size, mac_length) ∈ {(0,0), (8,16), (16,32)}` with the
standard 35000-byte ceiling, decoding `encode(payload)` **with the
`mac_length` MAC bytes appended by the external collaborator** returns a
`Packet` whose payload equals the original bytes (and whose MAC is the
appended bytes). Without the appended MAC, decode reports "incomplete"
for the MAC-bearing configurations. -/
theorem roundtrip_amended (payload : List Nat) (hlen1 : 1 ≤ payload.length)
    (hlen2 : payload.length ≤ 32768) (cbs mac : Nat)
    (hcfg : (cbs, mac) = (0, 0) ∨ (cbs, mac) = (8, 16) ∨ (cbs, mac) = (16, 32))
    (rng : Nat → List Nat) (hrng : ∀ n, (rng n).length = n)
    (macB : List Nat) (hmacB : macB.length = mac) (cap : Nat) :
    ∃ frame, PacketCodec.encode ⟨35000, mac, cbs⟩ rng payload [] = .ok frame ∧
      (PacketCodec.decode ⟨35000, mac, cbs⟩ .Head ⟨frame ++ macB, cap⟩).1
        = .packet ⟨payload, if mac = 0 then none else some macB⟩ := by
  have hblock : max cbs 8 ≤ 252 := by
    rcases hcfg with h | h | h <;> (injection h with h1 h2; subst h1; decide)
  have hmacle : mac ≤ 32 := by
    rcases hcfg with h | h | h <;> (injection h with h1 h2; subst h2; decide)
  exact roundtrip_general ⟨35000, mac, cbs⟩ payload hblock rng hrng macB hmacB
    (show 4 + (1 + payload.length + 255) + mac ≤ 35000 by omega) (by omega) cap

/-- C2 amended, instantiated: payload `[42]`, unencrypted, no MAC. -/
theorem roundtrip_amended_witness :
    ∃ frame, PacketCodec.encode ⟨35000, 0, 0⟩ (fun n => List.replicate n 0) [42] []
        = .ok frame ∧
      (PacketCodec.decode ⟨35000, 0, 0⟩ .Head ⟨frame ++ [], 0⟩).1
        = .packet ⟨[42], if 0 = 0 then none else some []⟩ :=
  roundtrip_amended [42] (by decide) (by decide) 0 0 (Or.inl rfl)
    (fun n => List.replicate n 0) (fun n => List.length_replicate n 0) [] rfl 0

/-- Helper: a well-formed frame unpacks to a packet, never a panic or an
error. -/
theorem unpackFrame_wellformed (self : PacketCodec) (frame : List Nat)
    (hwf : WellFormed self frame) :
    ∃ p, unpackFrame self frame = .packet p := by
  obtain ⟨hbytes, hlen, hmax, hpl, hpb⟩ := hwf
  have hpllt : readU32 frame < 4294967296 := readU32_lt frame
  have hd4len : (frame.drop 4).length = readU32 frame + self.mac_length := by
    rw [List.length_drop, hlen]
    omega
  have hne : frame.drop 4 ≠ [] := by
    intro h
    rw [h] at hd4len
    simp at hd4len
    omega
  obtain ⟨pb, r2, hd⟩ := List.exists_cons_of_ne_nil hne
  rw [hd] at hpb
  simp only [List.headD_cons] at hpb
  have hpb256 : pb < 256 := by
    have hmem : pb ∈ frame := List.drop_subset 4 frame (hd ▸ List.mem_cons_self pb r2)
    exact hbytes pb hmem
  have hr2 : r2.length = readU32 frame + self.mac_length - 1 := by
    rw [hd] at hd4len
    simp only [List.length_cons] at hd4len
    omega
  simp only [unpackFrame, hd]
  rw [if_neg (by omega)]
  simp only [Nat.mod_eq_of_lt hpb256]
  have hn1 : (readU32 frame + (4294967296 - (pb + 1))) % 4294967296
      = readU32 frame - pb - 1 := by omega
  rw [hn1]
  rw [if_neg (by omega)]
  rw [if_neg (by rw [List.length_drop]; omega)]
  rcases Nat.eq_zero_or_pos self.mac_length with hm | hm
  · rw [if_neg (by omega)]
    exact ⟨_, rfl⟩
  · rw [if_pos hm, if_neg (by rw [List.length_drop, List.length_drop]; omega)]
    exact ⟨_, rfl⟩

/-- Helper: `decode (.Data n)` is the data phase. -/
theorem decode_data_state (self : PacketCodec) (n : Nat) (src : BytesMut) :
    self.decode (.Data n) src = self.decodeBody n src := rfl

/-- Helper: single-shot decode of a complete well-formed frame unpacks it. -/
theorem decode_full (self : PacketCodec) (frame : List Nat)
    (hwf : WellFormed self frame) (cap : Nat) :
    (self.decode .Head ⟨frame, cap⟩).1 = unpackFrame self frame := by
  obtain ⟨hbytes, hlen, hmax, hpl, hpb⟩ := hwf
  have h1 := decode_head_to_body self ⟨frame, cap⟩
    (show 4 ≤ frame.length by omega)
    (show 4 + readU32 frame + self.mac_length ≤ self.max_packet_size from hmax)
    (show 1 ≤ readU32 frame from hpl)
  rw [h1]
  have h2 : self.decodeBody (4 + readU32 frame + self.mac_length)
      (BytesMut.reserve ⟨frame, cap⟩ (4 + readU32 frame + self.mac_length - frame.length))
      = (unpackFrame self (frame.take (4 + readU32 frame + self.mac_length)), .Head,
        BytesMut.reserve ⟨frame.drop (4 + readU32 frame + self.mac_length),
          (BytesMut.reserve ⟨frame, cap⟩
            (4 + readU32 frame + self.mac_length - frame.length)).cap⟩
          (4 - (frame.drop (4 + readU32 frame + self.mac_length)).length)) :=
    decodeBody_complete self _ _ (show 4 + readU32 frame + self.mac_length ≤ frame.length by omega)
  rw [show (self.decodeBody (4 + readU32 (BytesMut.data ⟨frame, cap⟩) + self.mac_length)
      (BytesMut.reserve ⟨frame, cap⟩
        (4 + readU32 (BytesMut.data ⟨frame, cap⟩) + self.mac_length
          - (BytesMut.data ⟨frame, cap⟩).length))).1
    = (self.decodeBody (4 + readU32 frame + self.mac_length)
      (BytesMut.reserve ⟨frame, cap⟩
        (4 + readU32 frame + self.mac_length - frame.length))).1 from rfl]
  rw [h2]
  show unpackFrame self (frame.take (4 + readU32 frame + self.mac_length)) = _
  rw [show 4 + readU32 frame + self.mac_length = frame.length from hlen.symm, List.take_length]

/-- Helper: once the codec is in the data phase for a well-formed frame,
each further byte yields "incomplete" until the last byte completes the
frame and unpacks it. -/
theorem feed_data_phase (self : PacketCodec) (frame : List Nat) :
    ∀ m k buf, frame.length - k = m → 4 ≤ k → k < frame.length →
      buf.data = frame.take k →
      (feed self (.Data frame.length, buf) (frame.drop k)).1
        = List.replicate (frame.length - k - 1) DecodeOutcome.incomplete
            ++ [unpackFrame self frame] := by
  intro m
  induction m with
  | zero =>
    intro k buf hm h4 hk hbuf
    omega
  | succ m ih =>
    intro k buf hm h4 hk hbuf
    have hdrop : frame.drop k = frame[k] :: frame.drop (k + 1) :=
      List.drop_eq_getElem_cons hk
    have hpush : (buf.push frame[k]).data = frame.take (k + 1) := by
      simp only [BytesMut.push, hbuf]
      rw [← List.concat_eq_append, List.take_concat_get]
    rw [hdrop]
    simp only [feed]
    by_cases hlast : k + 1 < frame.length
    · have hstep : self.decode (.Data frame.length) (buf.push frame[k])
          = (.incomplete, .Data frame.length, buf.push frame[k]) := by
        rw [decode_data_state]
        exact decodeBody_incomplete self _ _
          (by rw [hpush, List.length_take]; omega)
      simp only [hstep]
      rw [ih (k + 1) (buf.push frame[k]) (by omega) (by omega) hlast hpush]
      rw [show frame.length - k - 1 = (frame.length - (k + 1) - 1) + 1 from by omega,
        List.replicate_succ, List.cons_append]
    · have hkN : k + 1 = frame.length := by omega
      have hfull : (buf.push frame[k]).data = frame := by
        rw [hpush, hkN, List.take_length]
      have hstep : self.decode (.Data frame.length) (buf.push frame[k])
          = (unpackFrame self frame, .Head,
            BytesMut.reserve ⟨[], (buf.push frame[k]).cap⟩ (4 - ([] : List Nat).length)) := by
        rw [decode_data_state]
        have := decodeBody_complete self frame.length (buf.push frame[k])
          (by rw [hfull])
        rw [hfull] at this
        rw [this, List.take_length, List.drop_length]
      simp only [hstep]
      rw [show frame.drop (k + 1) = [] from by rw [hkN, List.drop_length]]
      simp only [feed]
      rw [show frame.length - k - 1 = 0 from by omega]
      simp

/-- Helper: feeding a well-formed frame byte by byte from the initial
state yields "incomplete" on every call but the last, which unpacks it. -/
theorem feed_head_phase (self : PacketCodec) (frame : List Nat)
    (hwf : WellFormed self frame) :
    (feed self (.Head, ⟨[], 0⟩) frame).1
      = List.replicate (frame.length - 1) DecodeOutcome.incomplete
          ++ [unpackFrame self frame] := by
  have hN5 : 5 ≤ frame.length := by
    obtain ⟨_, hlen, _, hpl, _⟩ := hwf
    omega
  obtain ⟨hbytes, hlen, hmax, hpl, hpb⟩ := hwf
  rcases frame with _ | ⟨b0, _ | ⟨b1, _ | ⟨b2, _ | ⟨b3, _ | ⟨b4, rest⟩⟩⟩⟩⟩
  · simp at hN5
  · simp at hN5
  · simp at hN5
  · simp at hN5
  · simp at hN5
  · have htot : (b0 :: b1 :: b2 :: b3 :: b4 :: rest).length
        = 4 + readU32 (b0 :: b1 :: b2 :: b3 :: b4 :: rest) + self.mac_length := hlen
    have hs4 : self.decode .Head ⟨[b0, b1, b2, b3], 4⟩
        = self.decodeBody (4 + readU32 (b0 :: b1 :: b2 :: b3 :: b4 :: rest) + self.mac_length)
          (BytesMut.reserve ⟨[b0, b1, b2, b3], 4⟩
            (4 + readU32 (b0 :: b1 :: b2 :: b3 :: b4 :: rest) + self.mac_length - 4)) :=
      decode_head_to_body self ⟨[b0, b1, b2, b3], 4⟩ (by show 4 ≤ 4; omega)
        (show 4 + readU32 (b0 :: b1 :: b2 :: b3 :: b4 :: rest) + self.mac_length
            ≤ self.max_packet_size from hmax)
        (show 1 ≤ readU32 (b0 :: b1 :: b2 :: b3 :: b4 :: rest) from hpl)
    have hs4' : self.decode .Head ⟨[b0, b1, b2, b3], 4⟩
        = (.incomplete,
          .Data (4 + readU32 (b0 :: b1 :: b2 :: b3 :: b4 :: rest) + self.mac_length),
          BytesMut.reserve ⟨[b0, b1, b2, b3], 4⟩
            (4 + readU32 (b0 :: b1 :: b2 :: b3 :: b4 :: rest) + self.mac_length - 4)) := by
      rw [hs4]
      exact decodeBody_incomplete self _ _ (by show 4 < _; omega)
    show DecodeOutcome.incomplete :: DecodeOutcome.incomplete :: DecodeOutcome.incomplete ::
        (self.decode .Head ⟨[b0, b1, b2, b3], 4⟩).1 ::
        (feed self ((self.decode .Head ⟨[b0, b1, b2, b3], 4⟩).2.1,
          (self.decode .Head ⟨[b0, b1, b2, b3], 4⟩).2.2) (b4 :: rest)).1 = _
    simp only [hs4']
    rw [← htot]
    have hdata : (feed self (.Data (b0 :: b1 :: b2 :: b3 :: b4 :: rest).length,
        BytesMut.reserve ⟨[b0, b1, b2, b3], 4⟩
          ((b0 :: b1 :: b2 :: b3 :: b4 :: rest).length - 4)) (b4 :: rest)).1
        = List.replicate ((b0 :: b1 :: b2 :: b3 :: b4 :: rest).length - 4 - 1)
            DecodeOutcome.incomplete
          ++ [unpackFrame self (b0 :: b1 :: b2 :: b3 :: b4 :: rest)] :=
      feed_data_phase self (b0 :: b1 :: b2 :: b3 :: b4 :: rest)
        ((b0 :: b1 :: b2 :: b3 :: b4 :: rest).length - 4) 4
        (BytesMut.reserve ⟨[b0, b1, b2, b3], 4⟩
          ((b0 :: b1 :: b2 :: b3 :: b4 :: rest).length - 4)) rfl (by omega)
        (by simp only [List.length_cons]; omega) rfl
    rw [hdata]
    simp only [List.length_cons]
    rw [show rest.length + 1 + 1 + 1 + 1 + 1 - 1
        = 4 + (rest.length + 1 + 1 + 1 + 1 + 1 - 4 - 1) from by omega,
      List.replicate_add]
    simp [List.append_assoc, List.replicate_succ]

/-- C7: feeding one well-formed complete frame's bytes to `decode` one
byte at a time yields "incomplete" on every call except the last, and the
last call yields the identical `Packet` that a single call on the whole
frame produces; partial input never errors. -/
theorem decode_resumable (self : PacketCodec) (frame : List Nat)
    (hwf : WellFormed self frame) :
    ∃ p, (self.decode .Head ⟨frame, 0⟩).1 = .packet p ∧
      (feed self (.Head, ⟨[], 0⟩) frame).1
        = List.replicate (frame.length - 1) DecodeOutcome.incomplete ++ [.packet p] := by
  obtain ⟨p, hp⟩ := unpackFrame_wellformed self frame hwf
  refine ⟨p, ?_, ?_⟩
  · rw [decode_full self frame hwf 0]
    exact hp
  · rw [feed_head_phase self frame hwf, hp]

/-- C7, instantiated: the 8-byte frame `[0,0,0,4,3,0,0,0]`
(packet_length 4, padding_length 3, empty payload, no MAC). -/
theorem decode_resumable_witness :
    ∃ p, (PacketCodec.decode ⟨35000, 0, 0⟩ .Head ⟨[0, 0, 0, 4, 3, 0, 0, 0], 0⟩).1
        = .packet p ∧
      (feed ⟨35000, 0, 0⟩ (.Head, ⟨[], 0⟩) [0, 0, 0, 4, 3, 0, 0, 0]).1
        = List.replicate ([0, 0, 0, 4, 3, 0, 0, 0].length - 1) DecodeOutcome.incomplete
          ++ [.packet p] :=
  decode_resumable ⟨35000, 0, 0⟩ [0, 0, 0, 4, 3, 0, 0, 0] (by decide)
